import Mathlib

/-!
Verification of the trending-category detector and pipeline orchestrator of
the kickstarter feature-engineering repository
(`src/utils/feature_engineer_df.py`, `src/utils/clean_df.py`).

The shallow embedding models:
  * a campaign row by its three detector-relevant columns (`launched`,
    `main_category`, `target`); `launched` is the timestamp after
    `pd.to_datetime(..., errors="coerce")`, so an unparseable value is `none`;
  * timestamps as integers counting days, with the deterministic weekly grid
    `pd.Series.dt.to_period("W")` anchored at day 0 (the pandas grid is the
    same grid shifted by a fixed constant, which no verified property depends
    on); `Period.to_timestamp` is the week start `7 * w`;
  * rational numbers for success rates and thresholds (pandas uses floats,
    but every verified property is about comparisons and exact quantile
    arithmetic on small fractions, which the float computation performs
    exactly in the regimes the claims describe);
  * the DataFrame index by the position of a row in the input list, matching
    the fresh `RangeIndex` the pipeline feeds the detector.

`identify_trending_categories` below mirrors the Python function line by
line: schema check, week bucketing, sort by launch date, per-week loop with
historical window / volume filter / threshold / trending set, and the final
reindex to the caller's row order.
-/

/-- Campaign record restricted to the columns the detector reads.
`launched = none` models a missing or unparseable timestamp (pandas `NaT`). -/
structure Row where
  launched : Option ℤ
  main_category : String
  target : ℚ
deriving DecidableEq, Repr

/-- Input table: the set of column names present plus the row data.
`cols` is carried so that the detector's schema check can be modelled. -/
structure DataFrame where
  cols : List String
  rows : List Row
deriving DecidableEq, Repr

/-- Required columns checked at the top of `identify_trending_categories`
(`required_cols = ['launched', 'main_category', 'target']`). -/
def requiredCols : List String := ["launched", "main_category", "target"]

/-- Columns from `required_cols` absent from the frame, in source order
(`[col for col in required_cols if col not in df.columns]`). -/
def missingCols (df : DataFrame) : List String :=
  requiredCols.filter (fun c => !(df.cols.contains c))

/-- Week bucket of a timestamp: floor division of the day number by 7,
modelling `launched.dt.to_period('W')` on the epoch-anchored grid.
Division is Euclidean, which is floor division for the positive divisor 7. -/
def weekOf (t : ℤ) : ℤ := t / 7

/-- Week bucket of a row (`launch_year_week` column); `none` for `NaT`. -/
def rowWeek (r : Row) : Option ℤ := Option.map weekOf r.launched

/-- Start timestamp of a week bucket (`current_week.to_timestamp()`). -/
def weekStart (w : ℤ) : ℤ := 7 * w

/-- Historical-window membership test for one row:
`(df_sorted['launched'] >= lookback_start) & (df_sorted['launched'] < current_week_start)`.
A `NaT` timestamp compares false on both sides, as in pandas. -/
def histMask (lb ws : ℤ) (r : Row) : Bool :=
  match r.launched with
  | some t => decide (lb ≤ t ∧ t < ws)
  | none => false

/-- Historical window of week `w`: rows with `launched` in
`[week_start - lookback_weeks * 7 days, week_start)` (half-open). -/
def histRows (rows : List Row) (L w : ℤ) : List Row :=
  rows.filter (histMask (weekStart w - 7 * L) (weekStart w))

/-- Number of historical rows of a category
(the `count` aggregate of `groupby('main_category')`). -/
def volumeOf (hist : List Row) (c : String) : ℕ :=
  hist.countP (fun r => decide (r.main_category = c))

/-- Historical success rate of a category
(the `mean` aggregate of `groupby('main_category')` over `target`). -/
def successRateOf (hist : List Row) (c : String) : ℚ :=
  (((hist.filter (fun r => decide (r.main_category = c))).map Row.target).sum) /
    (volumeOf hist c : ℚ)

/-- Distinct categories appearing in the historical window; one entry per
category, like the keys of `groupby('main_category')`. -/
def histCategories (hist : List Row) : List String :=
  (hist.map Row.main_category).dedup

/-- One row of the per-week `category_stats` frame. -/
structure CatStat where
  category : String
  volume : ℕ
  success_rate : ℚ
deriving DecidableEq, Repr

/-- The `category_stats` frame: one `(category, volume, success_rate)` row
per distinct historical category. -/
def categoryStats (hist : List Row) : List CatStat :=
  (histCategories hist).map (fun c => ⟨c, volumeOf hist c, successRateOf hist c⟩)

/-- Categories surviving the minimum-support filter
(`category_stats[category_stats['volume'] >= 5]`). -/
def survivingStats (hist : List Row) : List CatStat :=
  (categoryStats hist).filter (fun s => decide (5 ≤ s.volume))

/-- Ordered insertion used by `sortLe`. -/
def insertLe (le : α → α → Bool) (a : α) : List α → List α
  | [] => [a]
  | b :: l => if le a b then a :: b :: l else b :: insertLe le a l

/-- Insertion sort with a boolean comparator (the model's stand-in for the
sorts pandas performs; no verified property depends on the ordering itself,
only on the output being a permutation of the input). -/
def sortLe (le : α → α → Bool) : List α → List α
  | [] => []
  | a :: l => insertLe le a (sortLe le l)

/-- The 75th percentile with linear interpolation between order statistics,
as computed by `Series.quantile(0.75)` (pandas default interpolation):
with sorted values `x_0 ≤ ... ≤ x_(n-1)` and rank `h = 0.75 * (n - 1)`,
the result is `x_i + (h - i) * (x_(i+1) - x_i)` for `i = floor h`. -/
def quantile75 (xs : List ℚ) : ℚ :=
  let s := sortLe (fun a b => decide (a ≤ b)) xs
  let n := s.length
  let i : ℕ := 3 * (n - 1) / 4
  let frac : ℚ := 3 * ((n : ℚ) - 1) / 4 - (i : ℚ)
  let xi := s.getD i 0
  let xi1 := s.getD (i + 1) xi
  xi + frac * (xi1 - xi)

/-- Per-week threshold: the caller-supplied value if given, otherwise the
75th percentile of the surviving categories' success rates. -/
def weekThreshold (hist : List Row) (thrOpt : Option ℚ) : ℚ :=
  match thrOpt with
  | some t => t
  | none => quantile75 ((survivingStats hist).map CatStat.success_rate)

/-- Trending categories determined by one historical window: empty when the
window is empty or no category survives the volume filter (the loop body
`continue`s and week labels keep their initialized `False`), otherwise the
surviving categories whose success rate meets the threshold (inclusive). -/
def trendingOfHist (hist : List Row) (thrOpt : Option ℚ) : List String :=
  if hist.isEmpty then []
  else if (survivingStats hist).isEmpty then []
  else
    ((survivingStats hist).filter
      (fun s => decide (weekThreshold hist thrOpt ≤ s.success_rate))).map CatStat.category

/-- Trending set of week `w` computed from the full table. -/
def trendingSet (rows : List Row) (L : ℤ) (thrOpt : Option ℚ) (w : ℤ) : List String :=
  trendingOfHist (histRows rows L w) thrOpt

/-- Label of a single row: membership of its category in its own week's
trending set, `false` for rows with no week (`NaT` timestamps). This is the
per-row specification the loop below is proved to implement. -/
def rowLabel (rows : List Row) (L : ℤ) (thrOpt : Option ℚ) (r : Row) : Bool :=
  match rowWeek r with
  | none => false
  | some w => decide (r.main_category ∈ trendingSet rows L thrOpt w)

/-- Rows paired with their original index, starting at `k`
(the DataFrame index that `sort_values` permutes and `reindex` restores). -/
def idxFrom (k : ℕ) : List Row → List (ℕ × Row)
  | [] => []
  | r :: rs => (k, r) :: idxFrom (k + 1) rs

/-- Comparator of `sort_values('launched')`: ascending timestamps with
`NaT` sorted last (pandas `na_position='last'`). -/
def leLaunched (a b : ℕ × Row) : Bool :=
  match a.2.launched, b.2.launched with
  | some x, some y => decide (x ≤ y)
  | some _, none => true
  | none, some _ => false
  | none, none => true

/-- The `df_sorted` frame: indexed rows sorted by launch date. -/
def sortRows (l : List (ℕ × Row)) : List (ℕ × Row) := sortLe leLaunched l

/-- The `unique_weeks` list: distinct non-null week buckets, ascending
(`sorted(df_sorted['launch_year_week'].dropna().unique())`). -/
def uniqueWeeks (rows : List Row) : List ℤ :=
  sortLe (fun a b => decide (a ≤ b)) ((rows.filterMap rowWeek).dedup)

/-- Body of the per-week loop, acting on the accumulated label series
(entries are `(original index, row, label)` in sorted order). It mirrors the
source exactly: skip when the week has no rows, skip when the historical
window is empty, skip when no category survives the volume filter, otherwise
overwrite the labels of the week's rows with trending-set membership. -/
def processWeek (rows : List Row) (L : ℤ) (thrOpt : Option ℚ)
    (labels : List (ℕ × Row × Bool)) (w : ℤ) : List (ℕ × Row × Bool) :=
  if rows.countP (fun r => decide (rowWeek r = some w)) = 0 then labels
  else
    let hist := histRows rows L w
    if hist.isEmpty then labels
    else if (survivingStats hist).isEmpty then labels
    else
      let trending := ((survivingStats hist).filter
        (fun s => decide (weekThreshold hist thrOpt ≤ s.success_rate))).map CatStat.category
      labels.map (fun e =>
        if rowWeek e.2.1 = some w then (e.1, e.2.1, decide (e.2.1.main_category ∈ trending))
        else e)

/-- Effect of one loop iteration on a single entry of the label series
(`processWeek` is proved to be the entrywise map of this function). -/
def stepEntry (rows : List Row) (L : ℤ) (thrOpt : Option ℚ) (w : ℤ)
    (e : ℕ × Row × Bool) : ℕ × Row × Bool :=
  if rows.countP (fun r => decide (rowWeek r = some w)) = 0 then e
  else
    let hist := histRows rows L w
    if hist.isEmpty then e
    else if (survivingStats hist).isEmpty then e
    else
      let trending := ((survivingStats hist).filter
        (fun s => decide (weekThreshold hist thrOpt ≤ s.success_rate))).map CatStat.category
      if rowWeek e.2.1 = some w then (e.1, e.2.1, decide (e.2.1.main_category ∈ trending))
      else e

/-- The final `is_trending.reindex(df.index, fill_value=False)`: one label
per original index `0, ..., n-1`, looked up in the sorted label series,
`false` when absent. -/
def reindexLabels (n : ℕ) (final : List (ℕ × Row × Bool)) : List Bool :=
  (List.range n).map (fun i =>
    (Option.map (fun (e : ℕ × Row × Bool) => e.2.2)
      (final.find? (fun e => decide (e.1 = i)))).getD false)

/-- The detector `identify_trending_categories` of
`src/utils/feature_engineer_df.py`: schema check, sort by launch date,
initialize all labels to `False`, run the per-week loop over the distinct
weeks in ascending order, and reindex the labels to the caller's row order.
A missing required column raises `ValueError` (the spec's `SchemaError`),
modelled by the `Except.error` branch carrying the source's message. -/
def identify_trending_categories (df : DataFrame) (lookback_weeks : ℤ)
    (thrOpt : Option ℚ) : Except String (List Bool) :=
  if (missingCols df).isEmpty then
    let sorted := sortRows (idxFrom 0 df.rows)
    let init := sorted.map (fun p => (p.1, p.2, false))
    let final := (uniqueWeeks df.rows).foldl
      (processWeek df.rows lookback_weeks thrOpt) init
    .ok (reindexLabels df.rows.length final)
  else
    .error ("Missing required columns: " ++ toString (missingCols df))

/-- Heap-level wrapper recording which frame objects the detector touches.
The store is a list of frame objects; `ref` is the caller's frame. The
source's line `df = df.copy()` allocates a fresh object before any column is
written (`df['launched'] = ...`, `df['launch_year_week'] = ...` and the
further copies all target fresh objects), so the wrapper appends the copy to
the store and leaves every pre-existing object untouched; the labels are
returned as a value, not written into any stored frame. -/
def identifyOnStore (store : List DataFrame) (ref : ℕ) (L : ℤ)
    (thrOpt : Option ℚ) : Except String (List Bool) × List DataFrame :=
  match store[ref]? with
  | none => (.error "invalid frame reference", store)
  | some df => (identify_trending_categories df L thrOpt, store ++ [df])

/-- Filesystem path, modelled as its list of components; `dropLast` is
`Path.parent`. -/
def pathStr (p : List String) : String := String.intercalate "/" p

/-- Stage run by the orchestrator. `cleanData raw outDir` is the call
`clean_kickstarter_data(raw_path=raw, output_dir=outDir)`. Modelled from the
spec: the body of `clean_kickstarter_data` is absent from
`src/utils/clean_df.py` (which only imports it by name); per the spec it is
the cleaning collaborator that "accepts a raw file path and an output
directory" and produces the cleaned tables, so it is kept opaque here.
`engineerFeatures input output` is the rest of `build_features`: read the
engineered input and write the featured dataset. -/
inductive PipelineStep where
  | cleanData (rawPath outputDir : List String)
  | engineerFeatures (inputPath outputPath : List String)
deriving DecidableEq, Repr

/-- Dependency check of `build_features` in
`src/utils/feature_engineer_df.py`: if the engineered input file is absent,
require the raw file and run the cleaning stage into the input's directory
first (`FileNotFoundError`, the spec's `SourceMissingError`, when the raw
file is also absent); then run feature engineering. `existing` is the set of
files present on disk. -/
def build_features (existing : List (List String))
    (inputPath outputPath rawPath : List String) :
    Except String (List PipelineStep) :=
  if existing.contains inputPath then
    .ok [PipelineStep.engineerFeatures inputPath outputPath]
  else if existing.contains rawPath then
    .ok [PipelineStep.cleanData rawPath inputPath.dropLast,
         PipelineStep.engineerFeatures inputPath outputPath]
  else
    .error ("Neither the input file '" ++ pathStr inputPath ++ "' nor the raw file '" ++
      pathStr rawPath ++ "' could be found.")

/-- Rows strictly before the start of week `w` (the information a leakage-free
labelling of week `w` may depend on). -/
def beforeWeek (w : ℤ) (r : Row) : Bool :=
  match r.launched with
  | some t => decide (t < weekStart w)
  | none => false

/-- Rows at or after a lower bound timestamp (`NaT` compares false). -/
def lbMask (lb : ℤ) (r : Row) : Bool :=
  match r.launched with
  | some t => decide (lb ≤ t)
  | none => false

/-- Concrete table used by the witnesses: five successful `Music` rows and
one failed `Film` row in week 0, then one `Music` and one `Film` row in
week 1. With the default parameters, week 0 has no history and week 1's
historical window holds the six week-0 rows, of which only `Music` passes
the volume filter, so exactly the week-1 `Music` row is labelled trending. -/
def sampleRows : List Row :=
  [⟨some 0, "Music", 1⟩, ⟨some 1, "Music", 1⟩, ⟨some 2, "Music", 1⟩,
   ⟨some 3, "Music", 1⟩, ⟨some 4, "Music", 1⟩, ⟨some 5, "Film", 0⟩,
   ⟨some 7, "Music", 1⟩, ⟨some 8, "Film", 1⟩]

/-- Witness frame wrapping `sampleRows` with all required columns. -/
def sampleDF : DataFrame := ⟨requiredCols, sampleRows⟩

/-- The witness frame with one extra row launched in week 2 (at or after
week 1's start), used to exhibit leakage-freedom for week 1. -/
def extendedDF : DataFrame := ⟨requiredCols, sampleRows ++ [⟨some 20, "Games", 0⟩]⟩

/-- Witness frame missing the `launched` and `target` columns. -/
def badDF : DataFrame := ⟨["main_category"], []⟩

/-- Witness frame whose rows all fall in a single week. -/
def singleWeekDF : DataFrame := ⟨requiredCols, [⟨some 0, "Music", 1⟩, ⟨some 3, "Film", 0⟩]⟩

/-- Witness frame containing a row with an unparseable timestamp. -/
def nullRowDF : DataFrame := ⟨requiredCols, [⟨none, "Music", 1⟩, ⟨some 0, "Film", 1⟩]⟩

theorem getElem?_some_mem {l : List α} {i : ℕ} {a : α} (h : l[i]? = some a) : a ∈ l := by
  rcases List.getElem?_eq_some_iff.mp h with ⟨hlt, rfl⟩
  exact List.getElem_mem hlt

theorem getElem?_some_lt {l : List α} {i : ℕ} {a : α} (h : l[i]? = some a) : i < l.length := by
  rcases List.getElem?_eq_some_iff.mp h with ⟨hlt, _⟩
  exact hlt

theorem insertLe_perm (le : α → α → Bool) (a : α) (l : List α) :
    List.Perm (insertLe le a l) (a :: l) := by
  induction l with
  | nil => simp [insertLe]
  | cons b l ih =>
    simp only [insertLe]
    by_cases h : le a b = true
    · simp [h]
    · simp only [h]
      rw [if_neg (by simp [h])]
      exact (ih.cons b).trans (List.Perm.swap a b l)

theorem sortLe_perm (le : α → α → Bool) (l : List α) : List.Perm (sortLe le l) l := by
  induction l with
  | nil => simp [sortLe]
  | cons a l ih => exact (insertLe_perm le a (sortLe le l)).trans (ih.cons a)

theorem find?_eq_of_unique {l : List α} {p : α → Bool} {a : α} (ha : a ∈ l)
    (hpa : p a = true) (uniq : ∀ b ∈ l, p b = true → b = a) : l.find? p = some a := by
  induction l with
  | nil => cases ha
  | cons x l ih =>
    by_cases hx : p x = true
    · have hxa : x = a := uniq x (List.mem_cons_self x l) hx
      rw [List.find?_cons_of_pos _ hx, hxa]
    · rw [List.find?_cons_of_neg _ (by simp [hx])]
      rcases List.mem_cons.mp ha with rfl | ha'
      · exact absurd hpa hx
      · exact ih ha' (fun b hb hpb => uniq b (List.mem_cons_of_mem x hb) hpb)

theorem mem_idxFrom_of_getElem? {rows : List Row} {i : ℕ} {r : Row} :
    ∀ k, rows[i]? = some r → (k + i, r) ∈ idxFrom k rows := by
  induction rows generalizing i with
  | nil => intro k h; simp at h
  | cons x xs ih =>
    intro k h
    cases i with
    | zero =>
      simp only [List.getElem?_cons_zero, Option.some_inj] at h
      subst h
      simp [idxFrom]
    | succ i =>
      simp only [List.getElem?_cons_succ] at h
      have := ih (k + 1) h
      have harith : k + (i + 1) = (k + 1) + i := by omega
      rw [harith]
      exact List.mem_cons_of_mem _ this

theorem getElem?_of_mem_idxFrom {rows : List Row} {j : ℕ} {r : Row} :
    ∀ k, (j, r) ∈ idxFrom k rows → k ≤ j ∧ rows[j - k]? = some r := by
  induction rows with
  | nil => intro k h; simp [idxFrom] at h
  | cons x xs ih =>
    intro k h
    rcases List.mem_cons.mp h with heq | hmem
    · have hj : j = k := congrArg Prod.fst heq
      have hr : r = x := congrArg Prod.snd heq
      subst hj; subst hr
      simp
    · rcases ih (k + 1) hmem with ⟨hle, hget⟩
      refine ⟨by omega, ?_⟩
      have : j - k = (j - (k + 1)) + 1 := by omega
      rw [this, List.getElem?_cons_succ]
      exact hget

theorem stepEntry_of_week_ne {rows : List Row} {L : ℤ} {thrOpt : Option ℚ} {w : ℤ}
    {i : ℕ} {r : Row} {b : Bool} (h : rowWeek r ≠ some w) :
    stepEntry rows L thrOpt w (i, r, b) = (i, r, b) := by
  unfold stepEntry
  by_cases h0 : rows.countP (fun r => decide (rowWeek r = some w)) = 0
  · rw [if_pos h0]
  · rw [if_neg h0]
    simp only []
    by_cases h1 : (histRows rows L w).isEmpty
    · rw [if_pos h1]
    · rw [if_neg h1]
      by_cases h2 : (survivingStats (histRows rows L w)).isEmpty
      · rw [if_pos h2]
      · rw [if_neg h2]
        simp [h]

theorem stepEntry_of_week_eq {rows : List Row} {L : ℤ} {thrOpt : Option ℚ} {w : ℤ}
    {i : ℕ} {r : Row} (hr : r ∈ rows) (hw : rowWeek r = some w) :
    stepEntry rows L thrOpt w (i, r, false) = (i, r, rowLabel rows L thrOpt r) := by
  have hcnt : rows.countP (fun r => decide (rowWeek r = some w)) ≠ 0 := by
    intro h0
    have := List.countP_eq_zero.mp h0 r hr
    simp [hw] at this
  unfold stepEntry
  rw [if_neg hcnt]
  simp only []
  by_cases h1 : (histRows rows L w).isEmpty
  · rw [if_pos h1]
    have : trendingSet rows L thrOpt w = [] := by
      unfold trendingSet trendingOfHist
      rw [if_pos h1]
    simp [rowLabel, hw, this]
  · rw [if_neg h1]
    by_cases h2 : (survivingStats (histRows rows L w)).isEmpty
    · rw [if_pos h2]
      have : trendingSet rows L thrOpt w = [] := by
        unfold trendingSet trendingOfHist
        rw [if_neg h1, if_pos h2]
      simp [rowLabel, hw, this]
    · rw [if_neg h2]
      have htr : trendingSet rows L thrOpt w =
          ((survivingStats (histRows rows L w)).filter
            (fun s => decide (weekThreshold (histRows rows L w) thrOpt ≤ s.success_rate))).map
              CatStat.category := by
        unfold trendingSet trendingOfHist
        rw [if_neg h1, if_neg h2]
      have hlab : rowLabel rows L thrOpt r =
          decide (r.main_category ∈ trendingSet rows L thrOpt w) := by
        simp [rowLabel, hw]
      rw [hlab, htr]
      simp [hw]

theorem processWeek_eq_map (rows : List Row) (L : ℤ) (thrOpt : Option ℚ) :
    processWeek rows L thrOpt = fun labels w => labels.map (stepEntry rows L thrOpt w) := by
  funext labels w
  unfold processWeek stepEntry
  split
  · exact (List.map_id' labels).symm
  · simp only []
    split
    · exact (List.map_id' labels).symm
    · split
      · exact (List.map_id' labels).symm
      · rfl

theorem foldl_map_eq_map_foldl (g : ℤ → α → α) :
    ∀ (ws : List ℤ) (init : List α),
      ws.foldl (fun l w => l.map (g w)) init =
        init.map (fun e => ws.foldl (fun x w => g w x) e) := by
  intro ws
  induction ws with
  | nil => intro init; simp
  | cons w ws ih =>
    intro init
    simp only [List.foldl_cons]
    rw [ih (init.map (g w)), List.map_map]
    rfl

theorem foldl_stepEntry_not_mem {rows : List Row} {L : ℤ} {thrOpt : Option ℚ}
    {i : ℕ} {r : Row} {b : Bool} :
    ∀ ws : List ℤ, (∀ w ∈ ws, rowWeek r ≠ some w) →
      ws.foldl (fun x w => stepEntry rows L thrOpt w x) (i, r, b) = (i, r, b) := by
  intro ws
  induction ws with
  | nil => intro _; rfl
  | cons w ws ih =>
    intro h
    simp only [List.foldl_cons]
    rw [stepEntry_of_week_ne (h w (List.mem_cons_self w ws))]
    exact ih (fun v hv => h v (List.mem_cons_of_mem w hv))

theorem foldl_stepEntry_spec {rows : List Row} {L : ℤ} {thrOpt : Option ℚ}
    {i : ℕ} {r : Row} (hr : r ∈ rows) :
    ∀ ws : List ℤ, ws.Nodup → (∀ w, rowWeek r = some w → w ∈ ws) →
      ws.foldl (fun x w => stepEntry rows L thrOpt w x) (i, r, false) =
        (i, r, rowLabel rows L thrOpt r) := by
  intro ws
  induction ws with
  | nil =>
    intro _ hmem
    cases hrw : rowWeek r with
    | none => simp [rowLabel, hrw]
    | some w => exact absurd (hmem w hrw) (List.not_mem_nil w)
  | cons w ws ih =>
    intro hnd hmem
    simp only [List.foldl_cons]
    by_cases hw : rowWeek r = some w
    · rw [stepEntry_of_week_eq hr hw]
      have hnotin : ∀ v ∈ ws, rowWeek r ≠ some v := by
        intro v hv heq
        have : w = v := by
          have := hw.symm.trans heq
          exact Option.some_inj.mp this
        subst this
        exact (List.nodup_cons.mp hnd).1 hv
      exact foldl_stepEntry_not_mem ws hnotin
    · rw [stepEntry_of_week_ne hw]
      refine ih (List.nodup_cons.mp hnd).2 ?_
      intro v hrv
      rcases List.mem_cons.mp (hmem v hrv) with heq | hmemtail
      · exact absurd (heq ▸ hrv) hw
      · exact hmemtail

theorem uniqueWeeks_nodup (rows : List Row) : (uniqueWeeks rows).Nodup :=
  ((sortLe_perm _ _).nodup_iff).mpr (List.nodup_dedup _)

theorem mem_uniqueWeeks {rows : List Row} {r : Row} {w : ℤ} (hr : r ∈ rows)
    (hw : rowWeek r = some w) : w ∈ uniqueWeeks rows := by
  unfold uniqueWeeks
  rw [(sortLe_perm _ _).mem_iff, List.mem_dedup]
  exact List.mem_filterMap.mpr ⟨r, hr, hw⟩

theorem mem_sortRows_idx {rows : List Row} {p : ℕ × Row}
    (hp : p ∈ sortRows (idxFrom 0 rows)) : rows[p.1]? = some p.2 := by
  have hmem : p ∈ idxFrom 0 rows := (sortLe_perm leLaunched _).mem_iff.mp hp
  have := getElem?_of_mem_idxFrom 0 (by exact hmem)
  simpa using this.2

/-- Core correctness of the per-week loop: after the schema check succeeds,
the detector returns exactly the per-row labels `rowLabel`, one per input
row, in the caller's row order. -/
theorem identify_spec (df : DataFrame) (L : ℤ) (thrOpt : Option ℚ)
    (h : (missingCols df).isEmpty = true) :
    identify_trending_categories df L thrOpt =
      .ok (df.rows.map (rowLabel df.rows L thrOpt)) := by
  unfold identify_trending_categories
  rw [if_pos h]
  show Except.ok (reindexLabels df.rows.length
      ((uniqueWeeks df.rows).foldl (processWeek df.rows L thrOpt)
        ((sortRows (idxFrom 0 df.rows)).map (fun p => (p.1, p.2, false))))) =
    Except.ok (df.rows.map (rowLabel df.rows L thrOpt))
  congr 1
  set rows := df.rows with hrows
  set sorted := sortRows (idxFrom 0 rows) with hsorted
  have hfinal :
      (uniqueWeeks rows).foldl (processWeek rows L thrOpt)
          (sorted.map (fun p => (p.1, p.2, false))) =
        sorted.map (fun p => (p.1, p.2, rowLabel rows L thrOpt p.2)) := by
    rw [processWeek_eq_map rows L thrOpt,
      foldl_map_eq_map_foldl (stepEntry rows L thrOpt) (uniqueWeeks rows), List.map_map]
    refine List.map_congr_left ?_
    intro p hp
    have hget : rows[p.1]? = some p.2 := mem_sortRows_idx (hsorted ▸ hp)
    have hmem : p.2 ∈ rows := getElem?_some_mem hget
    exact foldl_stepEntry_spec hmem (uniqueWeeks rows) (uniqueWeeks_nodup rows)
      (fun w hw => mem_uniqueWeeks hmem hw)
  rw [hfinal]
  refine List.ext_getElem? ?_
  intro i
  by_cases hi : i < rows.length
  · obtain ⟨r, hr⟩ : ∃ r, rows[i]? = some r :=
      ⟨rows[i], List.getElem?_eq_some_iff.mpr ⟨hi, rfl⟩⟩
    have htarget : (i, r, rowLabel rows L thrOpt r) ∈
        sorted.map (fun p => (p.1, p.2, rowLabel rows L thrOpt p.2)) := by
      refine List.mem_map.mpr ⟨(i, r), ?_, rfl⟩
      rw [hsorted]
      unfold sortRows
      rw [(sortLe_perm leLaunched _).mem_iff]
      simpa using mem_idxFrom_of_getElem? 0 hr
    have hfind : (sorted.map (fun p => (p.1, p.2, rowLabel rows L thrOpt p.2))).find?
        (fun e => decide (e.1 = i)) = some (i, r, rowLabel rows L thrOpt r) := by
      refine find?_eq_of_unique htarget (by simp) ?_
      intro e he hpe
      rcases List.mem_map.mp he with ⟨q, hq, rfl⟩
      have hqi : q.1 = i := by simpa using hpe
      have hqget : rows[q.1]? = some q.2 := mem_sortRows_idx (hsorted ▸ hq)
      rw [hqi] at hqget
      have : q.2 = r := by
        rw [hr] at hqget
        exact (Option.some_inj.mp hqget).symm
      rw [hqi, this]
    unfold reindexLabels
    simp only [List.getElem?_map, List.getElem?_range hi, hr, Option.map_some', hfind,
      Option.getD_some]
  · unfold reindexLabels
    rw [List.getElem?_map, List.getElem?_map]
    have h1 : (List.range rows.length)[i]? = none := by
      rw [List.getElem?_eq_none_iff]
      simpa using Nat.le_of_not_lt hi
    have h2 : rows[i]? = none := by
      rw [List.getElem?_eq_none_iff]
      exact Nat.le_of_not_lt hi
    rw [h1, h2]
    rfl

theorem mem_histCategories_of_volume {hist : List Row} {c : String}
    (h : 0 < volumeOf hist c) : c ∈ histCategories hist := by
  rcases List.countP_pos_iff.mp h with ⟨r, hr, hp⟩
  have : r.main_category = c := of_decide_eq_true hp
  exact List.mem_dedup.mpr (List.mem_map.mpr ⟨r, hr, this⟩)

theorem categoryStats_canon {hist : List Row} {s : CatStat} (h : s ∈ categoryStats hist) :
    s = ⟨s.category, volumeOf hist s.category, successRateOf hist s.category⟩ ∧
      s.category ∈ histCategories hist := by
  rcases List.mem_map.mp h with ⟨c, hc, rfl⟩
  exact ⟨rfl, hc⟩

theorem surviving_mem_of_volume {hist : List Row} {c : String}
    (h5 : 5 ≤ volumeOf hist c) :
    (⟨c, volumeOf hist c, successRateOf hist c⟩ : CatStat) ∈ survivingStats hist := by
  refine List.mem_filter.mpr ⟨?_, by simpa using h5⟩
  exact List.mem_map.mpr ⟨c, mem_histCategories_of_volume (by omega), rfl⟩

theorem mem_trendingOfHist {hist : List Row} {thrOpt : Option ℚ} {c : String} :
    c ∈ trendingOfHist hist thrOpt ↔
      ∃ s ∈ survivingStats hist, weekThreshold hist thrOpt ≤ s.success_rate ∧
        s.category = c := by
  unfold trendingOfHist
  by_cases h1 : hist.isEmpty
  · rw [if_pos h1]
    have : hist = [] := List.isEmpty_iff.mp h1
    subst this
    constructor
    · intro h; cases h
    · rintro ⟨s, hs, -, -⟩
      simp [survivingStats, categoryStats, histCategories] at hs
  · rw [if_neg h1]
    by_cases h2 : (survivingStats hist).isEmpty
    · rw [if_pos h2]
      have : survivingStats hist = [] := List.isEmpty_iff.mp h2
      constructor
      · intro h; cases h
      · rintro ⟨s, hs, -, -⟩
        rw [this] at hs
        cases hs
    · rw [if_neg h2]
      constructor
      · intro h
        rcases List.mem_map.mp h with ⟨s, hs, rfl⟩
        rcases List.mem_filter.mp hs with ⟨hmem, hpred⟩
        exact ⟨s, hmem, of_decide_eq_true hpred, rfl⟩
      · rintro ⟨s, hs, hth, rfl⟩
        exact List.mem_map.mpr ⟨s, List.mem_filter.mpr ⟨hs, by simpa using hth⟩, rfl⟩

theorem trendingOfHist_subset_surviving {hist : List Row} {thrOpt : Option ℚ} {c : String}
    (h : c ∈ trendingOfHist hist thrOpt) :
    c ∈ (survivingStats hist).map CatStat.category := by
  rcases mem_trendingOfHist.mp h with ⟨s, hs, -, rfl⟩
  exact List.mem_map.mpr ⟨s, hs, rfl⟩

theorem histRows_factor (rows : List Row) (L w : ℤ) :
    histRows rows L w =
      (rows.filter (beforeWeek w)).filter (lbMask (weekStart w - 7 * L)) := by
  unfold histRows
  rw [List.filter_filter]
  refine (List.filter_congr ?_).symm
  intro r _
  cases hl : r.launched with
  | none => simp [lbMask, beforeWeek, histMask, hl]
  | some t => simp [lbMask, beforeWeek, histMask, hl, Bool.decide_and]

theorem histRows_congr {rows1 rows2 : List Row} {L w : ℤ}
    (h : rows1.filter (beforeWeek w) = rows2.filter (beforeWeek w)) :
    histRows rows1 L w = histRows rows2 L w := by
  rw [histRows_factor, histRows_factor, h]

theorem rowWeek_some_bounds {r : Row} {w : ℤ} (h : rowWeek r = some w) :
    ∃ t, r.launched = some t ∧ weekStart w ≤ t ∧ t < weekStart w + 7 := by
  unfold rowWeek at h
  cases hl : r.launched with
  | none => rw [hl] at h; cases h
  | some t =>
    rw [hl] at h
    have hw : weekOf t = w := Option.some_inj.mp h
    unfold weekOf at hw
    unfold weekStart
    exact ⟨t, rfl, by omega, by omega⟩

theorem trendingSet_eq_nil {rows : List Row} {L : ℤ} {thrOpt : Option ℚ} {w : ℤ}
    (h : histRows rows L w = [] ∨ survivingStats (histRows rows L w) = []) :
    trendingSet rows L thrOpt w = [] := by
  unfold trendingSet trendingOfHist
  rcases h with h | h
  · rw [if_pos (by simp [h])]
  · by_cases h1 : (histRows rows L w).isEmpty
    · rw [if_pos h1]
    · rw [if_neg h1, if_pos (by simp [h])]

/-- Claim C1 (leakage-freedom): for every week `w`, week-`w` labels are
computed only from rows launched strictly before `week_start w`. For any two
inputs that agree on all rows launched before `week_start w`, week `w`'s
trending set is identical, and the label of any common week-`w` row is
identical — so mutating or removing rows launched at or after `week_start w`
(other than the labelled row itself) cannot change week `w`'s labels. -/
theorem c1_leakage_freedom (df1 df2 : DataFrame) (L : ℤ) (thrOpt : Option ℚ)
    (w : ℤ) (i j : ℕ) (r : Row)
    (h1 : (missingCols df1).isEmpty = true) (h2 : (missingCols df2).isEmpty = true)
    (hagree : df1.rows.filter (beforeWeek w) = df2.rows.filter (beforeWeek w))
    (hi : df1.rows[i]? = some r) (hj : df2.rows[j]? = some r)
    (hw : rowWeek r = some w) :
    trendingSet df1.rows L thrOpt w = trendingSet df2.rows L thrOpt w ∧
    ∃ out1 out2, identify_trending_categories df1 L thrOpt = .ok out1 ∧
      identify_trending_categories df2 L thrOpt = .ok out2 ∧
      out1[i]? = out2[j]? ∧ out1[i]? = some (rowLabel df1.rows L thrOpt r) := by
  have hhist : histRows df1.rows L w = histRows df2.rows L w := histRows_congr hagree
  have htrend : trendingSet df1.rows L thrOpt w = trendingSet df2.rows L thrOpt w := by
    unfold trendingSet
    rw [hhist]
  refine ⟨htrend, df1.rows.map (rowLabel df1.rows L thrOpt),
    df2.rows.map (rowLabel df2.rows L thrOpt),
    identify_spec df1 L thrOpt h1, identify_spec df2 L thrOpt h2, ?_, ?_⟩
  · rw [List.getElem?_map, List.getElem?_map, hi, hj, Option.map_some', Option.map_some']
    have : rowLabel df1.rows L thrOpt r = rowLabel df2.rows L thrOpt r := by
      simp [rowLabel, hw, htrend]
    rw [this]
  · rw [List.getElem?_map, hi, Option.map_some']

/-- Claim C2 (threshold rule): for every week, a category passing the volume
filter is in the trending set iff its historical success rate is at least
the threshold (inclusive boundary); the threshold is the caller-supplied
value when given and otherwise the 75th percentile (linear interpolation,
`quantile75`) of the surviving categories' success rates, each category's
rate counted exactly once (the category column of the stats frame has no
duplicates). -/
theorem c2_threshold_rule (rows : List Row) (L : ℤ) (thrOpt : Option ℚ)
    (w : ℤ) (c : String) (hvol : 5 ≤ volumeOf (histRows rows L w) c) :
    (c ∈ trendingSet rows L thrOpt w ↔
      weekThreshold (histRows rows L w) thrOpt ≤ successRateOf (histRows rows L w) c) ∧
    (∀ v : ℚ, weekThreshold (histRows rows L w) (some v) = v) ∧
    weekThreshold (histRows rows L w) none =
      quantile75 ((survivingStats (histRows rows L w)).map CatStat.success_rate) ∧
    ((categoryStats (histRows rows L w)).map CatStat.category).Nodup := by
  refine ⟨?_, fun v => rfl, rfl, ?_⟩
  · show c ∈ trendingOfHist (histRows rows L w) thrOpt ↔ _
    rw [mem_trendingOfHist]
    constructor
    · rintro ⟨s, hs, hth, hcat⟩
      rcases categoryStats_canon (List.mem_of_mem_filter hs) with ⟨hcanon, -⟩
      have : s.success_rate = successRateOf (histRows rows L w) c := by
        rw [hcanon]
        simp [hcat]
      rw [this] at hth
      exact hth
    · intro hth
      exact ⟨⟨c, volumeOf (histRows rows L w) c, successRateOf (histRows rows L w) c⟩,
        surviving_mem_of_volume hvol, hth, rfl⟩
  · have : (categoryStats (histRows rows L w)).map CatStat.category =
        histCategories (histRows rows L w) := by
      unfold categoryStats
      rw [List.map_map]
      exact List.map_id' _
    rw [this]
    exact List.nodup_dedup _

/-- Claim C3 (minimum-support filter): a category with fewer than 5 rows in
a week's historical window is excluded from the surviving stats (hence from
the threshold computation) and from the trending set, and every week-`w`
row of that category is labelled `false`. -/
theorem c3_minimum_support (df : DataFrame) (L : ℤ) (thrOpt : Option ℚ)
    (w : ℤ) (c : String) (h : (missingCols df).isEmpty = true)
    (hvol : volumeOf (histRows df.rows L w) c < 5) :
    c ∉ (survivingStats (histRows df.rows L w)).map CatStat.category ∧
    c ∉ trendingSet df.rows L thrOpt w ∧
    ∃ out : List Bool, identify_trending_categories df L thrOpt = .ok out ∧
      ∀ (i : ℕ) (r : Row), df.rows[i]? = some r → rowWeek r = some w →
        r.main_category = c → out[i]? = some false := by
  have hnotsurv : c ∉ (survivingStats (histRows df.rows L w)).map CatStat.category := by
    intro hmem
    rcases List.mem_map.mp hmem with ⟨s, hs, rfl⟩
    rcases List.mem_filter.mp hs with ⟨hstat, hpred⟩
    rcases categoryStats_canon hstat with ⟨hcanon, -⟩
    have h5 : 5 ≤ s.volume := of_decide_eq_true hpred
    rw [hcanon] at h5
    exact absurd h5 (by simpa using hvol)
  have hnottrend : c ∉ trendingSet df.rows L thrOpt w := by
    intro hmem
    exact hnotsurv (trendingOfHist_subset_surviving hmem)
  refine ⟨hnotsurv, hnottrend, df.rows.map (rowLabel df.rows L thrOpt),
    identify_spec df L thrOpt h, ?_⟩
  intro i r hi hw hc
  rw [List.getElem?_map, hi, Option.map_some']
  have : rowLabel df.rows L thrOpt r = false := by
    simp only [rowLabel, hw]
    rw [hc]
    simpa using hnottrend
  rw [this]

/-- Claim C4 (schema failure): when a required column is absent, the
detector fails immediately with the error message naming exactly the
missing columns, returning no labels; each reported column is a required
one that is indeed absent from the frame. -/
theorem c4_schema_error (df : DataFrame) (L : ℤ) (thrOpt : Option ℚ)
    (h : (missingCols df).isEmpty = false) :
    identify_trending_categories df L thrOpt =
      .error ("Missing required columns: " ++ toString (missingCols df)) ∧
    missingCols df ≠ [] ∧
    ∀ c ∈ missingCols df, c ∈ requiredCols ∧ df.cols.contains c = false := by
  refine ⟨?_, ?_, ?_⟩
  · unfold identify_trending_categories
    rw [h]
    rfl
  · intro heq
    rw [heq] at h
    cases h
  · intro c hc
    rcases List.mem_filter.mp hc with ⟨hreq, hnot⟩
    exact ⟨hreq, by simpa using hnot⟩

/-- Claim C5 (alignment): the detector returns exactly one boolean label
per input row — the `rowLabel` of that row — in the caller's row order, so
the output length always equals the input length. -/
theorem c5_alignment (df : DataFrame) (L : ℤ) (thrOpt : Option ℚ)
    (h : (missingCols df).isEmpty = true) :
    identify_trending_categories df L thrOpt =
      .ok (df.rows.map (rowLabel df.rows L thrOpt)) ∧
    ∀ out, identify_trending_categories df L thrOpt = .ok out →
      out.length = df.rows.length := by
  refine ⟨identify_spec df L thrOpt h, ?_⟩
  intro out hout
  rw [identify_spec df L thrOpt h] at hout
  have : df.rows.map (rowLabel df.rows L thrOpt) = out := by
    cases hout
    rfl
  rw [← this, List.length_map]

/-- Claim C6 (empty-history default and totality): the detector never fails
after the schema check; any row of a week whose historical window is empty,
or whose historical categories are all removed by the volume filter, gets
label `false`; and on a dataset whose rows all fall in one single week,
every label is `false`. -/
theorem c6_empty_history (df : DataFrame) (L : ℤ) (thrOpt : Option ℚ)
    (h : (missingCols df).isEmpty = true) :
    ∃ out : List Bool, identify_trending_categories df L thrOpt = .ok out ∧
      (∀ (i : ℕ) (r : Row) (w : ℤ), df.rows[i]? = some r → rowWeek r = some w →
        (histRows df.rows L w = [] ∨ survivingStats (histRows df.rows L w) = []) →
        out[i]? = some false) ∧
      ((∃ w0, ∀ r ∈ df.rows, rowWeek r = some w0) →
        out = df.rows.map (fun _ => false)) := by
  refine ⟨df.rows.map (rowLabel df.rows L thrOpt), identify_spec df L thrOpt h, ?_, ?_⟩
  · intro i r w hi hw hnil
    rw [List.getElem?_map, hi, Option.map_some']
    have : rowLabel df.rows L thrOpt r = false := by
      simp only [rowLabel, hw]
      rw [trendingSet_eq_nil hnil]
      simp
    rw [this]
  · rintro ⟨w0, hall⟩
    refine List.map_congr_left ?_
    intro r hr
    have hw : rowWeek r = some w0 := hall r hr
    have hhist : histRows df.rows L w0 = [] := by
      refine List.filter_eq_nil_iff.mpr ?_
      intro x hx
      have hxw : rowWeek x = some w0 := hall x hx
      rcases rowWeek_some_bounds hxw with ⟨t, hl, hge, -⟩
      unfold weekStart at hge
      simp [histMask, hl, weekStart]
      omega
    simp only [rowLabel, hw]
    rw [trendingSet_eq_nil (Or.inl hhist)]
    simp

/-- Claim C7 (null-timestamp tolerance): a row with a missing or unparseable
timestamp is excluded from every historical window (its mask is always
false), is assigned no week, receives the label `false`, and causes no
error. -/
theorem c7_null_timestamps (df : DataFrame) (L : ℤ) (thrOpt : Option ℚ)
    (h : (missingCols df).isEmpty = true) :
    (∀ (lb ws : ℤ) (r : Row), r.launched = none → histMask lb ws r = false) ∧
    ∃ out : List Bool, identify_trending_categories df L thrOpt = .ok out ∧
      ∀ (i : ℕ) (r : Row), df.rows[i]? = some r → r.launched = none →
        out[i]? = some false := by
  refine ⟨fun lb ws r hr => by simp [histMask, hr], ?_⟩
  refine ⟨df.rows.map (rowLabel df.rows L thrOpt), identify_spec df L thrOpt h, ?_⟩
  intro i r hi hr
  rw [List.getElem?_map, hi, Option.map_some']
  have : rowLabel df.rows L thrOpt r = false := by
    simp [rowLabel, rowWeek, hr]
  rw [this]

/-- Claim C8 (orchestrator fallback): when the engineered input file is
absent but the raw source exists, `build_features` runs the cleaning stage
on the raw file (into the input's directory) before feature engineering;
when neither file exists, it fails with the `FileNotFoundError` message (the
spec's `SourceMissingError`) and runs no stage. -/
theorem c8_orchestrator_fallback (existing : List (List String))
    (inputPath outputPath rawPath : List String) :
    (existing.contains inputPath = false → existing.contains rawPath = true →
      build_features existing inputPath outputPath rawPath =
        .ok [PipelineStep.cleanData rawPath inputPath.dropLast,
             PipelineStep.engineerFeatures inputPath outputPath]) ∧
    (existing.contains inputPath = false → existing.contains rawPath = false →
      build_features existing inputPath outputPath rawPath =
        .error ("Neither the input file '" ++ pathStr inputPath ++ "' nor the raw file '" ++
          pathStr rawPath ++ "' could be found.")) := by
  constructor
  · intro hin hraw
    unfold build_features
    rw [hin, hraw]
    rfl
  · intro hin hraw
    unfold build_features
    rw [hin, hraw]
    rfl

/-- Claim C9 (purity): the detector leaves every frame object of the
caller's store unchanged — in particular the input frame itself — and
returns the labels as a fresh value; its result is exactly the pure
function of the input frame. -/
theorem c9_purity (store : List DataFrame) (ref : ℕ) (df : DataFrame) (L : ℤ)
    (thrOpt : Option ℚ) (h : store[ref]? = some df) :
    (identifyOnStore store ref L thrOpt).1 = identify_trending_categories df L thrOpt ∧
    ∀ (j : ℕ) (dfj : DataFrame), store[j]? = some dfj →
      (identifyOnStore store ref L thrOpt).2[j]? = some dfj := by
  unfold identifyOnStore
  rw [h]
  refine ⟨rfl, ?_⟩
  intro j dfj hj
  show (store ++ [df])[j]? = some dfj
  rw [List.getElem?_append_left (getElem?_some_lt hj)]
  exact hj

/-- Claim C10 (non-positive lookback): the detector validates
`lookback_weeks` nowhere; for any `lookback_weeks ≤ 0` the historical
interval `[week_start - 7 * lookback_weeks, week_start)` is empty for every
week, so no error is raised and every row is labelled `false`. -/
theorem c10_nonpositive_lookback (df : DataFrame) (L : ℤ) (thrOpt : Option ℚ)
    (h : (missingCols df).isEmpty = true) (hL : L ≤ 0) :
    identify_trending_categories df L thrOpt = .ok (df.rows.map (fun _ => false)) := by
  rw [identify_spec df L thrOpt h]
  congr 1
  refine List.map_congr_left ?_
  intro r _
  cases hw : rowWeek r with
  | none => simp [rowLabel, hw]
  | some w =>
    have hhist : histRows df.rows L w = [] := by
      refine List.filter_eq_nil_iff.mpr ?_
      intro x _
      cases hl : x.launched with
      | none => simp [histMask, hl]
      | some t =>
        simp [histMask, hl]
        intro hge
        unfold weekStart at hge ⊢
        omega
    simp only [rowLabel, hw]
    rw [trendingSet_eq_nil (Or.inl hhist)]
    simp

/-- Witness for C1: adding a week-2 row to the sample table leaves week 1's
trending set and the label of the common week-1 row unchanged. -/
theorem c1_leakage_freedom_witness :
    (missingCols sampleDF).isEmpty = true ∧ (missingCols extendedDF).isEmpty = true ∧
    sampleDF.rows.filter (beforeWeek 1) = extendedDF.rows.filter (beforeWeek 1) ∧
    sampleDF.rows[6]? = some ⟨some 7, "Music", 1⟩ ∧
    extendedDF.rows[6]? = some ⟨some 7, "Music", 1⟩ ∧
    rowWeek ⟨some 7, "Music", 1⟩ = some 1 ∧
    (trendingSet sampleDF.rows 4 none 1 = trendingSet extendedDF.rows 4 none 1 ∧
     ∃ out1 out2, identify_trending_categories sampleDF 4 none = .ok out1 ∧
       identify_trending_categories extendedDF 4 none = .ok out2 ∧
       out1[6]? = out2[6]? ∧
       out1[6]? = some (rowLabel sampleDF.rows 4 none ⟨some 7, "Music", 1⟩)) :=
  ⟨by with_unfolding_all rfl, by with_unfolding_all rfl, by with_unfolding_all rfl,
   by with_unfolding_all rfl, by with_unfolding_all rfl, by with_unfolding_all rfl,
   c1_leakage_freedom sampleDF extendedDF 4 none 1 6 6 ⟨some 7, "Music", 1⟩
     (by with_unfolding_all rfl) (by with_unfolding_all rfl) (by with_unfolding_all rfl)
     (by with_unfolding_all rfl) (by with_unfolding_all rfl) (by with_unfolding_all rfl)⟩

/-- Witness for C2, at the sample table's week 1 with category `Music`
(volume 5, success rate 1). -/
theorem c2_threshold_rule_witness :
    5 ≤ volumeOf (histRows sampleRows 4 1) "Music" ∧
    ((("Music" : String) ∈ trendingSet sampleRows 4 none 1 ↔
      weekThreshold (histRows sampleRows 4 1) none ≤
        successRateOf (histRows sampleRows 4 1) "Music") ∧
     (∀ v : ℚ, weekThreshold (histRows sampleRows 4 1) (some v) = v) ∧
     weekThreshold (histRows sampleRows 4 1) none =
       quantile75 ((survivingStats (histRows sampleRows 4 1)).map CatStat.success_rate) ∧
     ((categoryStats (histRows sampleRows 4 1)).map CatStat.category).Nodup) :=
  ⟨by decide, c2_threshold_rule sampleRows 4 none 1 "Music" (by decide)⟩

/-- Witness for C3, at the sample table's week 1 with category `Film`
(volume 1, below the minimum support of 5). -/
theorem c3_minimum_support_witness :
    volumeOf (histRows sampleDF.rows 4 1) "Film" < 5 ∧
    (("Film" : String) ∉ (survivingStats (histRows sampleDF.rows 4 1)).map CatStat.category ∧
     ("Film" : String) ∉ trendingSet sampleDF.rows 4 none 1 ∧
     ∃ out : List Bool, identify_trending_categories sampleDF 4 none = .ok out ∧
       ∀ (i : ℕ) (r : Row), sampleDF.rows[i]? = some r → rowWeek r = some 1 →
         r.main_category = "Film" → out[i]? = some false) :=
  ⟨by decide, c3_minimum_support sampleDF 4 none 1 "Film" (by decide) (by decide)⟩

/-- Witness for C4, on a frame carrying only the `main_category` column. -/
theorem c4_schema_error_witness :
    (missingCols badDF).isEmpty = false ∧
    (identify_trending_categories badDF 4 none =
      .error ("Missing required columns: " ++ toString (missingCols badDF)) ∧
     missingCols badDF ≠ [] ∧
     ∀ c ∈ missingCols badDF, c ∈ requiredCols ∧ badDF.cols.contains c = false) :=
  ⟨by decide, c4_schema_error badDF 4 none (by decide)⟩

/-- Witness for C5 on the sample table. -/
theorem c5_alignment_witness :
    (missingCols sampleDF).isEmpty = true ∧
    (identify_trending_categories sampleDF 4 none =
      .ok (sampleDF.rows.map (rowLabel sampleDF.rows 4 none)) ∧
     ∀ out, identify_trending_categories sampleDF 4 none = .ok out →
       out.length = sampleDF.rows.length) :=
  ⟨by decide, c5_alignment sampleDF 4 none (by decide)⟩

/-- Witness for C6 on a single-week table. -/
theorem c6_empty_history_witness :
    (missingCols singleWeekDF).isEmpty = true ∧
    (∃ out : List Bool, identify_trending_categories singleWeekDF 4 none = .ok out ∧
      (∀ (i : ℕ) (r : Row) (w : ℤ), singleWeekDF.rows[i]? = some r → rowWeek r = some w →
        (histRows singleWeekDF.rows 4 w = [] ∨
          survivingStats (histRows singleWeekDF.rows 4 w) = []) →
        out[i]? = some false) ∧
      ((∃ w0, ∀ r ∈ singleWeekDF.rows, rowWeek r = some w0) →
        out = singleWeekDF.rows.map (fun _ => false))) :=
  ⟨by decide, c6_empty_history singleWeekDF 4 none (by decide)⟩

/-- Witness for C7 on a table holding a row with an unparseable timestamp. -/
theorem c7_null_timestamps_witness :
    (missingCols nullRowDF).isEmpty = true ∧
    ((∀ (lb ws : ℤ) (r : Row), r.launched = none → histMask lb ws r = false) ∧
     ∃ out : List Bool, identify_trending_categories nullRowDF 4 none = .ok out ∧
       ∀ (i : ℕ) (r : Row), nullRowDF.rows[i]? = some r → r.launched = none →
         out[i]? = some false) :=
  ⟨by decide, c7_null_timestamps nullRowDF 4 none (by decide)⟩

/-- Witness for C8: with only the raw file on disk the orchestrator cleans
then engineers; with no file at all it fails with the source-missing
message. -/
theorem c8_orchestrator_fallback_witness :
    build_features [["data", "raw.csv"]] ["data", "clean.csv"] ["data", "feat.csv"]
        ["data", "raw.csv"] =
      .ok [PipelineStep.cleanData ["data", "raw.csv"] ["data"],
           PipelineStep.engineerFeatures ["data", "clean.csv"] ["data", "feat.csv"]] ∧
    build_features [] ["data", "clean.csv"] ["data", "feat.csv"] ["data", "raw.csv"] =
      .error ("Neither the input file '" ++ pathStr ["data", "clean.csv"] ++
        "' nor the raw file '" ++ pathStr ["data", "raw.csv"] ++ "' could be found.") :=
  ⟨(c8_orchestrator_fallback [["data", "raw.csv"]] ["data", "clean.csv"]
      ["data", "feat.csv"] ["data", "raw.csv"]).1 (by decide) (by decide),
   (c8_orchestrator_fallback [] ["data", "clean.csv"] ["data", "feat.csv"]
      ["data", "raw.csv"]).2 (by decide) (by decide)⟩

/-- Witness for C9 on a one-frame store. -/
theorem c9_purity_witness :
    ([sampleDF] : List DataFrame)[0]? = some sampleDF ∧
    ((identifyOnStore [sampleDF] 0 4 none).1 = identify_trending_categories sampleDF 4 none ∧
     ∀ (j : ℕ) (dfj : DataFrame), ([sampleDF] : List DataFrame)[j]? = some dfj →
       (identifyOnStore [sampleDF] 0 4 none).2[j]? = some dfj) :=
  ⟨by decide, c9_purity [sampleDF] 0 sampleDF 4 none (by decide)⟩

/-- Witness for C10 with `lookback_weeks = 0` on the sample table. -/
theorem c10_nonpositive_lookback_witness :
    (missingCols sampleDF).isEmpty = true ∧ (0 : ℤ) ≤ 0 ∧
    identify_trending_categories sampleDF 0 none =
      .ok (sampleDF.rows.map (fun _ => false)) :=
  ⟨by decide, by decide, c10_nonpositive_lookback sampleDF 0 none (by decide) (by decide)⟩
